import Mathlib

/-!
Shallow embedding of the mincepie master-worker MapReduce engine
(`mincepie.py`): the TaskManager scheduling state machine, the worker's
task execution wrapper (`Client.call_map` / `call_reduce`), and the
framing / authentication protocol (`Protocol.found_terminator`,
`process_unauthed_command`, `respond_to_challenge`, `verify_auth`,
`ServerChannel.post_auth_init`).

Python dictionaries are modelled as insertion-ordered association lists,
Python sets as duplicate-free lists with set insertion/removal, the pickled
payloads as typed values, and `random.choice` as a nondeterministic index
supplied to each call.
-/

namespace Mincepie

/-! ### Association-list model of Python dicts, list model of Python sets -/

variable {K V IK IV R A : Type}

/-- Lookup in an association list (python `m[k]` / `k in m`). -/
def dlookup [DecidableEq K] : List (K × A) → K → Option A
  | [], _ => none
  | (k', a) :: rest, k => if k' = k then some a else dlookup rest k

/-- Overwriting insertion, `m[k] = a`: replaces in place or appends. -/
def dinsert [DecidableEq K] : List (K × A) → K → A → List (K × A)
  | [], k, a => [(k, a)]
  | (k', a') :: rest, k, a =>
      if k' = k then (k, a) :: rest else (k', a') :: dinsert rest k a

/-- Models `if key not in m: m[key] = []` followed by `m[key].extend(vs)`. -/
def extendAt [DecidableEq K] : List (K × List A) → K → List A → List (K × List A)
  | [], k, vs => [(k, vs)]
  | (k', vs') :: rest, k, vs =>
      if k' = k then (k', vs' ++ vs) :: rest else (k', vs') :: extendAt rest k vs

/-- Python `set.add`. -/
def sinsert [DecidableEq K] (k : K) (l : List K) : List K :=
  if k ∈ l then l else k :: l

/-- Python `set.remove` (on a duplicate-free list). -/
def serase [DecidableEq K] : List K → K → List K
  | [], _ => []
  | a :: rest, k => if a = k then rest else a :: serase rest k

theorem dlookup_dinsert_self [DecidableEq K] (m : List (K × A)) (k : K) (a : A) :
    dlookup (dinsert m k a) k = some a := by
  induction m with
  | nil => simp [dinsert, dlookup]
  | cons hd tl ih =>
      by_cases h : hd.1 = k
      · simp [dinsert, dlookup, h]
      · simp [dinsert, dlookup, h, ih]

theorem dlookup_dinsert_ne [DecidableEq K] (m : List (K × A)) (k k' : K) (a : A)
    (h : k' ≠ k) : dlookup (dinsert m k a) k' = dlookup m k' := by
  have h' : ¬k = k' := fun hh => h hh.symm
  induction m with
  | nil => simp [dinsert, dlookup, h']
  | cons hd tl ih =>
      by_cases hh : hd.1 = k
      · simp [dinsert, dlookup, hh, h']
      · simp [dinsert, dlookup, hh, ih]

theorem dlookup_extendAt_self [DecidableEq K] (m : List (K × List A)) (k : K)
    (vs : List A) :
    dlookup (extendAt m k vs) k = some ((dlookup m k).getD [] ++ vs) := by
  induction m with
  | nil => simp [extendAt, dlookup]
  | cons hd tl ih =>
      by_cases h : hd.1 = k
      · simp [extendAt, dlookup, h]
      · simp [extendAt, dlookup, h, ih]

theorem dlookup_extendAt_ne [DecidableEq K] (m : List (K × List A)) (k k' : K)
    (vs : List A) (h : k' ≠ k) :
    dlookup (extendAt m k vs) k' = dlookup m k' := by
  have h' : ¬k = k' := fun hh => h hh.symm
  induction m with
  | nil => simp [extendAt, dlookup, h']
  | cons hd tl ih =>
      by_cases hh : hd.1 = k
      · subst hh
        simp [extendAt, dlookup, h']
      · simp [extendAt, dlookup, hh, ih]

/-- Appending under a key absent from the list just appends a new entry. -/
theorem extendAt_not_mem [DecidableEq K] (m : List (K × List A)) (k : K)
    (vs : List A) (h : k ∉ m.map Prod.fst) :
    extendAt m k vs = m ++ [(k, vs)] := by
  induction m with
  | nil => simp [extendAt]
  | cons hd tl ih =>
      simp only [List.map_cons, List.mem_cons] at h
      push_neg at h
      have h1 : ¬hd.1 = k := fun hh => h.1 hh.symm
      simp [extendAt, h1, ih h.2]

theorem dinsert_not_mem [DecidableEq K] (m : List (K × A)) (k : K) (a : A)
    (h : k ∉ m.map Prod.fst) :
    dinsert m k a = m ++ [(k, a)] := by
  induction m with
  | nil => simp [dinsert]
  | cons hd tl ih =>
      simp only [List.map_cons, List.mem_cons] at h
      push_neg at h
      have h1 : ¬hd.1 = k := fun hh => h.1 hh.symm
      simp [dinsert, h1, ih h.2]

theorem mem_sinsert_self [DecidableEq K] (k : K) (l : List K) :
    k ∈ sinsert k l := by
  by_cases h : k ∈ l <;> simp [sinsert, h]

theorem serase_sinsert [DecidableEq K] (k : K) (l : List K) (h : k ∉ l) :
    serase (sinsert k l) k = l := by
  simp [sinsert, h, serase]

theorem not_mem_serase_of_nodup [DecidableEq K] (k : K) (l : List K)
    (h : l.Nodup) : k ∉ serase l k := by
  induction l with
  | nil => simp [serase]
  | cons a rest ih =>
      rcases List.nodup_cons.mp h with ⟨ha, hrest⟩
      by_cases hak : a = k
      · subst hak
        simpa [serase] using ha
      · simp only [serase, if_neg hak, List.mem_cons]
        push_neg
        exact ⟨fun hh => hak hh.symm, ih hrest⟩

theorem nodup_sinsert [DecidableEq K] (k : K) (l : List K) (h : l.Nodup) :
    (sinsert k l).Nodup := by
  by_cases hk : k ∈ l
  · simpa [sinsert, hk] using h
  · simpa [sinsert, hk] using List.nodup_cons.mpr ⟨hk, h⟩

theorem mem_of_mem_serase [DecidableEq K] {a k : K} {l : List K}
    (h : a ∈ serase l k) : a ∈ l := by
  induction l with
  | nil => simp [serase] at h
  | cons b rest ih =>
      by_cases hbk : b = k
      · simp only [serase, if_pos hbk] at h
        exact List.mem_cons_of_mem _ h
      · simp only [serase, if_neg hbk, List.mem_cons] at h
        rcases h with h | h
        · exact h ▸ List.mem_cons_self _ _
        · exact List.mem_cons_of_mem _ (ih h)

theorem nodup_serase [DecidableEq K] (k : K) (l : List K) (h : l.Nodup) :
    (serase l k).Nodup := by
  induction l with
  | nil => simp [serase]
  | cons a rest ih =>
      rcases List.nodup_cons.mp h with ⟨ha, hrest⟩
      by_cases hak : a = k
      · simpa [serase, hak] using hrest
      · rw [serase, if_neg hak]
        refine List.nodup_cons.mpr ⟨?_, ih hrest⟩
        intro hmem
        exact ha (mem_of_mem_serase hmem)

/-! ### The TaskManager (mincepie.py lines 360-429) -/

/-- The phase enum `TASK = Enum(['START','MAPPING','REDUCING','FINISHED'])`. -/
inductive TASK
  | START
  | MAPPING
  | REDUCING
  | FINISHED
deriving DecidableEq

/-- A dataset as produced by a Reader: iterable keys plus indexed lookup
(spec section 6 Reader contract; `iter(self.datasource)` and
`self.datasource[key]` in `next_task`). -/
structure Dataset (K V : Type) where
  keys : List K
  lookup : K → V

/-- A task command returned by `next_task`: `(COMMAND.map, (key, value))`,
`(COMMAND.reduce, (key, values))` or `(COMMAND.disconnect, None)`. -/
inductive TaskCmd (K V IK IV : Type)
  | map (key : K) (value : V)
  | reduce (key : IK) (values : List IV)
  | disconnect
deriving DecidableEq

/-- The TaskManager's mutable attributes. Fields that Python creates lazily
(`map_iter`, `working_maps`, ...) exist from the start with inert defaults.
The working sets are Python sets, modelled as duplicate-free lists. -/
structure TMState (K V IK IV R : Type) where
  state : TASK
  datasource : Dataset K V
  map_iter : List K
  working_maps : List K
  map_results : List (IK × List IV)
  reduce_iter : List (IK × List IV)
  working_reduces : List IK
  results : List (IK × R)

/-- Result of one `next_task` call: the returned command (Python can fall off
the function end, returning `None`), whether `server.handle_close()` ran
during the call, and the updated TaskManager state. -/
structure NTResult (K V IK IV R : Type) where
  cmd : Option (TaskCmd K V IK IV)
  closeServer : Bool
  s : TMState K V IK IV R

/-- TaskManager construction: `self.state = TASK.START`. -/
def tmInit (ds : Dataset K V) : TMState K V IK IV R :=
  { state := .START, datasource := ds, map_iter := [], working_maps := [],
    map_results := [], reduce_iter := [], working_reduces := [], results := [] }

/-- Models `random.choice(list(w))`: an element of `w` chosen by the
nondeterministic index `r` supplied by the environment. -/
def pickFrom (w : List K) (r : Nat) (h : 0 < w.length) : K :=
  w.get ⟨r % w.length, Nat.mod_lt _ h⟩

theorem pickFrom_mem (w : List K) (r : Nat) (h : 0 < w.length) :
    pickFrom w r h ∈ w :=
  List.get_mem w _ _

theorem pickFrom_singleton (k : K) (r : Nat) (h : 0 < [k].length) :
    pickFrom [k] r h = k := by
  simp [pickFrom]

/-- The `if self.state == TASK.START:` block of `next_task`. -/
def startBlock (s : TMState K V IK IV R) : TMState K V IK IV R :=
  if s.state = .START then
    { s with map_iter := s.datasource.keys, working_maps := [],
             map_results := [], state := .MAPPING }
  else s

/-- The trailing `if self.state == TASK.FINISHED:` block of `next_task`:
`self.server.handle_close()` then `return (COMMAND.disconnect, None)`.
If the state is not FINISHED here, Python falls off the end returning None. -/
def finishedBlock (s : TMState K V IK IV R) : NTResult K V IK IV R :=
  if s.state = .FINISHED then ⟨some .disconnect, true, s⟩
  else ⟨none, false, s⟩

/-- The `if self.state == TASK.REDUCING:` block of `next_task`. -/
def reducingBlock [DecidableEq IK] (s : TMState K V IK IV R) (r : Nat) :
    NTResult K V IK IV R :=
  if s.state = .REDUCING then
    match s.reduce_iter with
    | item :: rest =>
        ⟨some (.reduce item.1 item.2), false,
         { s with reduce_iter := rest,
                  working_reduces := sinsert item.1 s.working_reduces }⟩
    | [] =>
        if h : 0 < s.working_reduces.length then
          ⟨some (.reduce (pickFrom s.working_reduces r h)
            ((dlookup s.map_results (pickFrom s.working_reduces r h)).getD [])),
           false, s⟩
        else finishedBlock { s with state := .FINISHED }
  else finishedBlock s

/-- The MAPPING-to-REDUCING transition assignments of `next_task`. -/
def toReducing (s : TMState K V IK IV R) : TMState K V IK IV R :=
  { s with state := .REDUCING, reduce_iter := s.map_results,
           working_reduces := [], results := [] }

/-- The `if self.state == TASK.MAPPING:` block of `next_task`. -/
def mappingBlock [DecidableEq K] [DecidableEq IK] (s : TMState K V IK IV R)
    (r : Nat) : NTResult K V IK IV R :=
  if s.state = .MAPPING then
    match s.map_iter with
    | k :: rest =>
        ⟨some (.map k (s.datasource.lookup k)), false,
         { s with map_iter := rest, working_maps := sinsert k s.working_maps }⟩
    | [] =>
        if h : 0 < s.working_maps.length then
          ⟨some (.map (pickFrom s.working_maps r h)
            (s.datasource.lookup (pickFrom s.working_maps r h))), false, s⟩
        else reducingBlock (toReducing s) r
  else reducingBlock s r

/-- `TaskManager.next_task`, with `r` feeding the `random.choice` calls. -/
def nextTask [DecidableEq K] [DecidableEq IK] (s : TMState K V IK IV R)
    (r : Nat) : NTResult K V IK IV R :=
  mappingBlock (startBlock s) r

/-- `TaskManager.map_done(data)`. -/
def map_done [DecidableEq K] [DecidableEq IK] (s : TMState K V IK IV R)
    (data : K × List (IK × List IV)) : TMState K V IK IV R :=
  if data.1 ∈ s.working_maps then
    { s with
      map_results := data.2.foldl (fun m e => extendAt m e.1 e.2) s.map_results,
      working_maps := serase s.working_maps data.1 }
  else s

/-- `TaskManager.reduce_done(data)`. -/
def reduce_done [DecidableEq IK] (s : TMState K V IK IV R)
    (data : IK × R) : TMState K V IK IV R :=
  if data.1 ∈ s.working_reduces then
    { s with results := dinsert s.results data.1 data.2,
             working_reduces := serase s.working_reduces data.1 }
  else s

/-! ### The worker executor (`Client.call_map` / `Client.call_reduce`,
mincepie.py lines 230-259) -/

/-- The local grouping loop of `call_map`: `results[k].append(v)` with the
`KeyError` fallback `results[k] = [v]`. -/
def groupPairs [DecidableEq IK] (ps : List (IK × IV)) : List (IK × List IV) :=
  ps.foldl (fun m e => extendAt m e.1 [e.2]) []

/-- `Client.call_map`: runs the pluggable mapper on `(key, value)`, groups its
emissions, and sends `(COMMAND.mapdone, (key, grouped))`. The mapper may raise
(`Except.error`); `call_map` has no handler around the mapper invocation, so
the error propagates and nothing is sent. -/
def call_map {E : Type} [DecidableEq IK]
    (mapper : K → V → Except E (List (IK × IV))) (data : K × V) :
    Except E (K × List (IK × List IV)) :=
  (mapper data.1 data.2).map (fun pairs => (data.1, groupPairs pairs))

/-- `Client.call_reduce`: runs the pluggable reducer and sends
`(COMMAND.reducedone, (key, result))`; a raising reducer propagates. -/
def call_reduce {E : Type} (reducer : IK → List IV → Except E R)
    (data : IK × List IV) : Except E (IK × R) :=
  (reducer data.1 data.2).map (fun res => (data.1, res))

/-- The identity mapper of claim C1: emits its input pair unchanged. -/
def idMapper (k : K) (v : V) : List (K × V) := [(k, v)]

/-- The identity reducer of claim C1: returns the value sequence unchanged. -/
def idReducer (_k : K) (vs : List V) : List V := vs

/-- An end-to-end run driver: one faithful worker repeatedly asks for a task,
executes it with the identity mapper/reducer through the worker's
`call_map`/`call_reduce` packaging, and reports each task done exactly once.
Fuel bounds the number of request/report rounds. -/
def runDriver [DecidableEq K] : Nat → TMState K V K V (List V) →
    TMState K V K V (List V)
  | 0, s => s
  | Nat.succ fuel, s =>
      let res := nextTask s 0
      match res.cmd with
      | some (.map k v) => runDriver fuel (map_done res.s (k, groupPairs (idMapper k v)))
      | some (.reduce k vs) => runDriver fuel (reduce_done res.s (k, idReducer k vs))
      | some .disconnect => res.s
      | none => res.s

/-- Modelled from the spec: "final results equal to grouping D's values by
key" — each key of the key-addressable dataset groups to the one-element
sequence of its value. -/
def specGroupByKey (D : Dataset K V) : List (K × List V) :=
  D.keys.map (fun k => (k, [D.lookup k]))

/-! ### Characterization lemmas for `next_task` -/

theorem startBlock_of_ne [DecidableEq K] (s : TMState K V IK IV R)
    (h : s.state ≠ .START) : startBlock s = s := by
  simp [startBlock, h]

theorem nextTask_mapping_cons [DecidableEq K] [DecidableEq IK]
    (s : TMState K V IK IV R) (r : Nat) (k : K) (rest : List K)
    (h1 : s.state = .MAPPING) (h2 : s.map_iter = k :: rest) :
    nextTask s r = ⟨some (.map k (s.datasource.lookup k)), false,
      { s with map_iter := rest, working_maps := sinsert k s.working_maps }⟩ := by
  rw [nextTask, startBlock_of_ne s (by rw [h1]; intro hh; cases hh)]
  rw [mappingBlock, if_pos h1, h2]

theorem nextTask_mapping_reissue [DecidableEq K] [DecidableEq IK]
    (s : TMState K V IK IV R) (r : Nat)
    (h1 : s.state = .MAPPING) (h2 : s.map_iter = [])
    (h3 : 0 < s.working_maps.length) :
    nextTask s r = ⟨some (.map (pickFrom s.working_maps r h3)
      (s.datasource.lookup (pickFrom s.working_maps r h3))), false, s⟩ := by
  rw [nextTask, startBlock_of_ne s (by rw [h1]; intro hh; cases hh)]
  rw [mappingBlock, if_pos h1, h2]
  simp [h3]

theorem nextTask_mapping_transition [DecidableEq K] [DecidableEq IK]
    (s : TMState K V IK IV R) (r : Nat)
    (h1 : s.state = .MAPPING) (h2 : s.map_iter = [])
    (h3 : s.working_maps = []) :
    nextTask s r = reducingBlock (toReducing s) r := by
  rw [nextTask, startBlock_of_ne s (by rw [h1]; intro hh; cases hh)]
  rw [mappingBlock, if_pos h1, h2]
  simp [h3]

theorem nextTask_of_reducing [DecidableEq K] [DecidableEq IK]
    (s : TMState K V IK IV R) (r : Nat) (h1 : s.state = .REDUCING) :
    nextTask s r = reducingBlock s r := by
  rw [nextTask, startBlock_of_ne s (by rw [h1]; intro hh; cases hh)]
  rw [mappingBlock, if_neg (by rw [h1]; intro hh; cases hh)]

theorem reducingBlock_cons [DecidableEq IK]
    (s : TMState K V IK IV R) (r : Nat) (item : IK × List IV)
    (rest : List (IK × List IV))
    (h1 : s.state = .REDUCING) (h2 : s.reduce_iter = item :: rest) :
    reducingBlock s r = ⟨some (.reduce item.1 item.2), false,
      { s with reduce_iter := rest,
               working_reduces := sinsert item.1 s.working_reduces }⟩ := by
  rw [reducingBlock, if_pos h1, h2]

theorem reducingBlock_reissue [DecidableEq IK]
    (s : TMState K V IK IV R) (r : Nat)
    (h1 : s.state = .REDUCING) (h2 : s.reduce_iter = [])
    (h3 : 0 < s.working_reduces.length) :
    reducingBlock s r = ⟨some (.reduce (pickFrom s.working_reduces r h3)
      ((dlookup s.map_results (pickFrom s.working_reduces r h3)).getD [])),
      false, s⟩ := by
  rw [reducingBlock, if_pos h1, h2]
  simp [h3]

theorem reducingBlock_transition [DecidableEq IK]
    (s : TMState K V IK IV R) (r : Nat)
    (h1 : s.state = .REDUCING) (h2 : s.reduce_iter = [])
    (h3 : s.working_reduces = []) :
    reducingBlock s r = ⟨some .disconnect, true, { s with state := .FINISHED }⟩ := by
  rw [reducingBlock, if_pos h1, h2]
  simp [h3, finishedBlock]

theorem nextTask_finished [DecidableEq K] [DecidableEq IK]
    (s : TMState K V IK IV R) (r : Nat) (h1 : s.state = .FINISHED) :
    nextTask s r = ⟨some .disconnect, true, s⟩ := by
  rw [nextTask, startBlock_of_ne s (by rw [h1]; intro hh; cases hh)]
  rw [mappingBlock, if_neg (by rw [h1]; intro hh; cases hh)]
  rw [reducingBlock, if_neg (by rw [h1]; intro hh; cases hh)]
  rw [finishedBlock, if_pos h1]

/-! ### Lemmas on the end-to-end driver -/

theorem foldl_extendAt_fresh [DecidableEq K] (l : List K) (f : K → List A) :
    ∀ (m : List (K × List A)), l.Nodup → (∀ k ∈ l, k ∉ m.map Prod.fst) →
    l.foldl (fun acc k => extendAt acc k (f k)) m =
      m ++ l.map (fun k => (k, f k)) := by
  induction l with
  | nil => intro m _ _; simp
  | cons k rest ih =>
      intro m hnd hdisj
      rcases List.nodup_cons.mp hnd with ⟨hk, hrest⟩
      rw [List.foldl_cons,
        extendAt_not_mem m k (f k) (hdisj k (List.mem_cons_self _ _)),
        ih (m ++ [(k, f k)]) hrest ?_]
      · simp
      · intro k' hk'
        simp only [List.map_append, List.mem_append]
        push_neg
        refine ⟨hdisj k' (List.mem_cons_of_mem _ hk'), ?_⟩
        simp only [List.map_cons, List.map_nil, List.mem_singleton]
        intro hh
        exact hk (hh ▸ hk')

theorem foldl_dinsert_fresh [DecidableEq K] (l : List (K × A)) :
    ∀ (m : List (K × A)), (l.map Prod.fst).Nodup →
    (∀ e ∈ l, e.1 ∉ m.map Prod.fst) →
    l.foldl (fun acc e => dinsert acc e.1 e.2) m = m ++ l := by
  induction l with
  | nil => intro m _ _; simp
  | cons e rest ih =>
      intro m hnd hdisj
      rw [List.map_cons, List.nodup_cons] at hnd
      rw [List.foldl_cons,
        dinsert_not_mem m e.1 e.2 (hdisj e (List.mem_cons_self _ _)),
        ih (m ++ [(e.1, e.2)]) hnd.2 ?_]
      · simp
      · intro e' he'
        simp only [List.map_append, List.mem_append]
        push_neg
        refine ⟨hdisj e' (List.mem_cons_of_mem _ he'), ?_⟩
        simp only [List.map_cons, List.map_nil, List.mem_singleton]
        intro hh
        exact hnd.1 (hh ▸ (List.mem_map_of_mem Prod.fst he'))

theorem runDriver_start [DecidableEq K] (fuel : Nat)
    (s : TMState K V K V (List V)) (h : s.state = .START) :
    runDriver (fuel + 1) s = runDriver (fuel + 1) (startBlock s) := by
  have hst : (startBlock s).state = .MAPPING := by simp [startBlock, h]
  have hnt : nextTask s 0 = nextTask (startBlock s) 0 := by
    rw [nextTask, nextTask,
      startBlock_of_ne (startBlock s) (by rw [hst]; intro hh; cases hh)]
  simp only [runDriver]
  rw [hnt]

theorem runDriver_mapPhase [DecidableEq K] (l : List K) :
    ∀ (s : TMState K V K V (List V)) (j : Nat),
    s.state = .MAPPING → s.map_iter = l → s.working_maps = [] →
    runDriver (l.length + j) s =
      runDriver j
        { s with
          map_iter := [],
          map_results :=
            l.foldl (fun m k => extendAt m k [s.datasource.lookup k])
              s.map_results } := by
  induction l with
  | nil =>
      intro s j h1 h2 h3
      obtain ⟨st, ds, mi, wm, mr, ri, wr, res⟩ := s
      simp only at h2 h3
      subst h2 h3
      simp
  | cons k rest ih =>
      intro s j h1 h2 h3
      have hnt := nextTask_mapping_cons s 0 k rest h1 h2
      have hlen : (k :: rest).length + j = (rest.length + j) + 1 := by
        simp [List.length_cons]
        omega
      rw [hlen]
      simp only [runDriver]
      rw [hnt]
      simp only [map_done, groupPairs, idMapper, h3]
      have hmem : k ∈ sinsert k ([] : List K) := mem_sinsert_self k []
      simp only [sinsert, List.not_mem_nil, if_false, ite_false]
      simp only [List.foldl_cons, List.foldl_nil, extendAt, serase, if_pos rfl,
        List.mem_singleton, ite_true, if_true]
      exact ih _ j h1 rfl rfl

theorem runDriver_transitionReducing [DecidableEq K] (fuel : Nat)
    (s : TMState K V K V (List V)) (h1 : s.state = .MAPPING)
    (h2 : s.map_iter = []) (h3 : s.working_maps = []) :
    runDriver (fuel + 1) s = runDriver (fuel + 1) (toReducing s) := by
  have hnt : nextTask s 0 = nextTask (toReducing s) 0 := by
    rw [nextTask_mapping_transition s 0 h1 h2 h3,
        nextTask_of_reducing (toReducing s) 0 (by simp [toReducing])]
  simp only [runDriver]
  rw [hnt]

theorem runDriver_reducePhase [DecidableEq K] (l : List (K × List V)) :
    ∀ (s : TMState K V K V (List V)) (j : Nat),
    s.state = .REDUCING → s.reduce_iter = l → s.working_reduces = [] →
    runDriver (l.length + j) s =
      runDriver j
        { s with
          reduce_iter := [],
          results := l.foldl (fun acc e => dinsert acc e.1 e.2) s.results } := by
  induction l with
  | nil =>
      intro s j h1 h2 h3
      obtain ⟨st, ds, mi, wm, mr, ri, wr, res⟩ := s
      simp only at h2 h3
      subst h2 h3
      simp
  | cons item rest ih =>
      intro s j h1 h2 h3
      have hnt := nextTask_of_reducing s 0 h1
      rw [reducingBlock_cons s 0 item rest h1 h2] at hnt
      have hlen : (item :: rest).length + j = (rest.length + j) + 1 := by
        simp [List.length_cons]
        omega
      rw [hlen]
      simp only [runDriver]
      rw [hnt]
      simp only [reduce_done, idReducer, h3]
      simp only [sinsert, List.not_mem_nil, if_false, ite_false]
      simp only [serase, if_pos rfl, List.mem_singleton, ite_true, if_true]
      exact ih _ j h1 rfl rfl

theorem runDriver_finish [DecidableEq K] (fuel : Nat)
    (s : TMState K V K V (List V)) (h1 : s.state = .REDUCING)
    (h2 : s.reduce_iter = []) (h3 : s.working_reduces = []) :
    runDriver (fuel + 1) s = { s with state := .FINISHED } := by
  have hnt := nextTask_of_reducing s 0 h1
  rw [reducingBlock_transition s 0 h1 h2 h3] at hnt
  simp only [runDriver]
  rw [hnt]

/-- Claim C1: for every finite dataset D (distinct keys), a complete
end-to-end run with an identity mapper and identity reducer — a worker that
executes every dispatched task faithfully and reports each key done exactly
once — terminates in the FINISHED phase with Final Results equal to grouping
D's values by key. -/
theorem c1_end_to_end [DecidableEq K] (D : Dataset K V) (hnd : D.keys.Nodup) :
    (runDriver (2 * D.keys.length + 1) (tmInit D)).state = .FINISHED ∧
    (runDriver (2 * D.keys.length + 1) (tmInit D)).results = specGroupByKey D := by
  have hgrp : D.keys.foldl (fun m k => extendAt m k [D.lookup k])
      ([] : List (K × List V)) = specGroupByKey D := by
    simpa [specGroupByKey] using
      foldl_extendAt_fresh D.keys (fun k => [D.lookup k]) [] hnd (by simp)
  have hkeys : (specGroupByKey D).map Prod.fst = D.keys := by
    simp only [specGroupByKey, List.map_map]
    have hc : (Prod.fst ∘ fun k : K => (k, [D.lookup k])) = fun k => k := rfl
    rw [hc, List.map_id']
  have hres : (specGroupByKey D).foldl (fun acc e => dinsert acc e.1 e.2)
      ([] : List (K × List V)) = specGroupByKey D := by
    simpa using foldl_dinsert_fresh (specGroupByKey D) []
      (by rw [hkeys]; exact hnd) (by simp)
  have hfin : runDriver (2 * D.keys.length + 1) (tmInit D) =
      ({ state := .FINISHED, datasource := D, map_iter := [],
         working_maps := [], map_results := specGroupByKey D,
         reduce_iter := [], working_reduces := [],
         results := specGroupByKey D } : TMState K V K V (List V)) := by
    calc runDriver (2 * D.keys.length + 1) (tmInit D)
        = runDriver (2 * D.keys.length + 1)
            ({ state := .MAPPING, datasource := D, map_iter := D.keys,
               working_maps := [], map_results := [], reduce_iter := [],
               working_reduces := [], results := [] } :
              TMState K V K V (List V)) := by
          simpa [startBlock, tmInit] using
            runDriver_start (2 * D.keys.length) (tmInit D) rfl
      _ = runDriver (D.keys.length + (D.keys.length + 1))
            ({ state := .MAPPING, datasource := D, map_iter := D.keys,
               working_maps := [], map_results := [], reduce_iter := [],
               working_reduces := [], results := [] } :
              TMState K V K V (List V)) := by
          rw [show 2 * D.keys.length + 1
              = D.keys.length + (D.keys.length + 1) by omega]
      _ = runDriver (D.keys.length + 1)
            ({ state := .MAPPING, datasource := D, map_iter := [],
               working_maps := [],
               map_results := D.keys.foldl
                 (fun m k => extendAt m k [D.lookup k]) [],
               reduce_iter := [], working_reduces := [], results := [] } :
              TMState K V K V (List V)) :=
          runDriver_mapPhase D.keys _ (D.keys.length + 1) rfl rfl rfl
      _ = runDriver (D.keys.length + 1)
            ({ state := .MAPPING, datasource := D, map_iter := [],
               working_maps := [], map_results := specGroupByKey D,
               reduce_iter := [], working_reduces := [], results := [] } :
              TMState K V K V (List V)) := by
          rw [hgrp]
      _ = runDriver (D.keys.length + 1)
            ({ state := .REDUCING, datasource := D, map_iter := [],
               working_maps := [], map_results := specGroupByKey D,
               reduce_iter := specGroupByKey D, working_reduces := [],
               results := [] } : TMState K V K V (List V)) :=
          runDriver_transitionReducing D.keys.length _ rfl rfl rfl
      _ = runDriver ((specGroupByKey D).length + 1)
            ({ state := .REDUCING, datasource := D, map_iter := [],
               working_maps := [], map_results := specGroupByKey D,
               reduce_iter := specGroupByKey D, working_reduces := [],
               results := [] } : TMState K V K V (List V)) := by
          rw [show (D.keys.length : Nat) = (specGroupByKey D).length by
            simp [specGroupByKey]]
      _ = runDriver 1
            ({ state := .REDUCING, datasource := D, map_iter := [],
               working_maps := [], map_results := specGroupByKey D,
               reduce_iter := [], working_reduces := [],
               results := (specGroupByKey D).foldl
                 (fun acc e => dinsert acc e.1 e.2) [] } :
              TMState K V K V (List V)) :=
          runDriver_reducePhase (specGroupByKey D) _ 1 rfl rfl rfl
      _ = runDriver 1
            ({ state := .REDUCING, datasource := D, map_iter := [],
               working_maps := [], map_results := specGroupByKey D,
               reduce_iter := [], working_reduces := [],
               results := specGroupByKey D } : TMState K V K V (List V)) := by
          rw [hres]
      _ = ({ state := .FINISHED, datasource := D, map_iter := [],
             working_maps := [], map_results := specGroupByKey D,
             reduce_iter := [], working_reduces := [],
             results := specGroupByKey D } : TMState K V K V (List V)) :=
          runDriver_finish 0 _ rfl rfl rfl
  rw [hfin]
  exact ⟨rfl, rfl⟩

/-- A concrete dataset exercising `c1_end_to_end`. -/
def dsW : Dataset Nat Nat := ⟨[1, 2], fun k => 10 * k⟩

/-- Witness for `c1_end_to_end` at a concrete two-key dataset. -/
theorem c1_end_to_end_witness :
    dsW.keys.Nodup ∧
    ((runDriver (2 * dsW.keys.length + 1)
        (tmInit dsW : TMState Nat Nat Nat Nat (List Nat))).state = .FINISHED ∧
      (runDriver (2 * dsW.keys.length + 1)
        (tmInit dsW : TMState Nat Nat Nat Nat (List Nat))).results
        = specGroupByKey dsW) :=
  ⟨by decide, c1_end_to_end dsW (by decide)⟩

/-! ### Phase monotonicity (claim C3) -/

/-- Position of a phase in the `START → MAPPING → REDUCING → FINISHED`
order. -/
def phaseIdx : TASK → Nat
  | .START => 0
  | .MAPPING => 1
  | .REDUCING => 2
  | .FINISHED => 3

/-- One TaskManager entry point: a `next_task` request (with its random
draw), a `map_done` report, or a `reduce_done` report. -/
inductive TMOp (K V IK IV R : Type)
  | request (r : Nat)
  | mapDone (d : K × List (IK × List IV))
  | reduceDone (d : IK × R)

/-- Applying one TaskManager call to the manager's state. -/
def applyOp [DecidableEq K] [DecidableEq IK] (s : TMState K V IK IV R) :
    TMOp K V IK IV R → TMState K V IK IV R
  | .request r => ((nextTask s r).s)
  | .mapDone d => map_done s d
  | .reduceDone d => reduce_done s d

theorem map_done_state [DecidableEq K] [DecidableEq IK]
    (s : TMState K V IK IV R) (d : K × List (IK × List IV)) :
    (map_done s d).state = s.state := by
  rw [map_done]
  split <;> rfl

theorem reduce_done_state [DecidableEq IK]
    (s : TMState K V IK IV R) (d : IK × R) :
    (reduce_done s d).state = s.state := by
  rw [reduce_done]
  split <;> rfl

theorem reducingBlock_state_mono [DecidableEq IK]
    (s : TMState K V IK IV R) (r : Nat) :
    phaseIdx s.state ≤ phaseIdx ((reducingBlock s r).s).state := by
  by_cases h1 : s.state = .REDUCING
  · cases hri : s.reduce_iter with
    | cons item rest =>
        rw [reducingBlock_cons s r item rest h1 hri]
    | nil =>
        by_cases h3 : 0 < s.working_reduces.length
        · rw [reducingBlock_reissue s r h1 hri h3]
        · have h3' : s.working_reduces = [] := by
            cases hw : s.working_reduces with
            | nil => rfl
            | cons a t => rw [hw] at h3; simp at h3
          rw [reducingBlock_transition s r h1 hri h3']
          simp [h1, phaseIdx]
  · rw [reducingBlock, if_neg h1, finishedBlock]
    split <;> simp

theorem nextTask_state_mono [DecidableEq K] [DecidableEq IK]
    (s : TMState K V IK IV R) (r : Nat) :
    phaseIdx s.state ≤ phaseIdx ((nextTask s r).s).state := by
  by_cases h0 : s.state = .START
  · rw [h0]
    simp [phaseIdx]
  · rw [nextTask, startBlock_of_ne s h0]
    by_cases h1 : s.state = .MAPPING
    · rw [mappingBlock, if_pos h1]
      cases hmi : s.map_iter with
      | cons k rest => simp [h1, phaseIdx]
      | nil =>
          by_cases h3 : 0 < s.working_maps.length
          · simp only [h3, dite_true, dif_pos]
            exact Nat.le_refl _
          · simp only [h3, dite_false, dif_neg]
            calc phaseIdx s.state ≤ phaseIdx (toReducing s).state := by
                  simp [toReducing, h1, phaseIdx]
              _ ≤ _ := reducingBlock_state_mono (toReducing s) r
    · rw [mappingBlock, if_neg h1]
      exact reducingBlock_state_mono s r

theorem applyOp_state_mono [DecidableEq K] [DecidableEq IK]
    (s : TMState K V IK IV R) (op : TMOp K V IK IV R) :
    phaseIdx s.state ≤ phaseIdx (applyOp s op).state := by
  cases op with
  | request r => exact nextTask_state_mono s r
  | mapDone d => rw [applyOp, map_done_state]
  | reduceDone d => rw [applyOp, reduce_done_state]

theorem nextTask_mapping_change [DecidableEq K] [DecidableEq IK]
    (s : TMState K V IK IV R) (r : Nat) (h1 : s.state = .MAPPING)
    (h : ((nextTask s r).s).state ≠ .MAPPING) :
    s.map_iter = [] ∧ s.working_maps = [] := by
  cases hmi : s.map_iter with
  | cons k rest =>
      rw [nextTask_mapping_cons s r k rest h1 hmi] at h
      exact absurd h1 h
  | nil =>
      cases hw : s.working_maps with
      | cons a t =>
          have h3 : 0 < s.working_maps.length := by rw [hw]; simp
          rw [nextTask_mapping_reissue s r h1 hmi h3] at h
          exact absurd h1 h
      | nil => exact ⟨rfl, rfl⟩

theorem nextTask_reducing_change [DecidableEq K] [DecidableEq IK]
    (s : TMState K V IK IV R) (r : Nat) (h1 : s.state = .REDUCING)
    (h : ((nextTask s r).s).state ≠ .REDUCING) :
    s.reduce_iter = [] ∧ s.working_reduces = [] := by
  rw [nextTask_of_reducing s r h1] at h
  cases hri : s.reduce_iter with
  | cons item rest =>
      rw [reducingBlock_cons s r item rest h1 hri] at h
      exact absurd h1 h
  | nil =>
      cases hw : s.working_reduces with
      | cons a t =>
          have h3 : 0 < s.working_reduces.length := by rw [hw]; simp
          rw [reducingBlock_reissue s r h1 hri h3] at h
          exact absurd h1 h
      | nil => exact ⟨rfl, rfl⟩

/-- Claim C3: across every sequence of `next_task`, `map_done` and
`reduce_done` calls the phase never regresses along
`START → MAPPING → REDUCING → FINISHED`; the MAPPING-to-REDUCING
transition occurs only when the dataset iterator is exhausted and the map
working set is empty, REDUCING-to-FINISHED symmetrically, and the done
handlers never change the phase. -/
theorem c3_phase_machine [DecidableEq K] [DecidableEq IK] :
    (∀ (s : TMState K V IK IV R) (ops : List (TMOp K V IK IV R)),
        phaseIdx s.state ≤ phaseIdx ((ops.foldl applyOp s).state)) ∧
    (∀ (s : TMState K V IK IV R) (r : Nat), s.state = .MAPPING →
        ((nextTask s r).s).state ≠ .MAPPING →
        s.map_iter = [] ∧ s.working_maps = []) ∧
    (∀ (s : TMState K V IK IV R) (r : Nat), s.state = .REDUCING →
        ((nextTask s r).s).state ≠ .REDUCING →
        s.reduce_iter = [] ∧ s.working_reduces = []) ∧
    (∀ (s : TMState K V IK IV R) (d : K × List (IK × List IV)),
        (map_done s d).state = s.state) ∧
    (∀ (s : TMState K V IK IV R) (d : IK × R),
        (reduce_done s d).state = s.state) := by
  refine ⟨?_, nextTask_mapping_change, nextTask_reducing_change,
    map_done_state, reduce_done_state⟩
  intro s ops
  induction ops generalizing s with
  | nil => exact Nat.le_refl _
  | cons op rest ih =>
      exact Nat.le_trans (applyOp_state_mono s op) (ih (applyOp s op))

/-- A MAPPING state with an exhausted iterator and empty working set, used
to witness the transition conditions of `c3_phase_machine`. -/
def csMap : TMState Nat Nat Nat Nat Nat :=
  { state := .MAPPING, datasource := dsW, map_iter := [], working_maps := [],
    map_results := [], reduce_iter := [], working_reduces := [], results := [] }

/-- Witness for `c3_phase_machine`: monotonicity along a concrete request
sequence, and the MAPPING-exit conditions at a concrete state. -/
theorem c3_phase_machine_witness :
    (phaseIdx (tmInit dsW : TMState Nat Nat Nat Nat Nat).state ≤
      phaseIdx (([TMOp.request 0].foldl applyOp
        (tmInit dsW : TMState Nat Nat Nat Nat Nat)).state)) ∧
    (csMap.map_iter = [] ∧ csMap.working_maps = []) :=
  ⟨c3_phase_machine.1 (tmInit dsW : TMState Nat Nat Nat Nat Nat)
      [TMOp.request 0],
   c3_phase_machine.2.1 csMap 0 rfl (by decide)⟩

/-! ### Speculative re-issue (claim C4) -/

/-- Claim C4: in MAPPING with the dataset iterator exhausted and a non-empty
working set, `next_task` re-issues a MAP task whose key is drawn from the
working set (for every random draw), leaving the entire TaskManager state —
in particular working set and phase — unchanged; with exactly one straggling
key in flight the returned key is that key; and the phase leaves MAPPING
only when the working set is empty. -/
theorem c4_reissue [DecidableEq K] [DecidableEq IK] :
    (∀ (s : TMState K V IK IV R) (r : Nat) (h1 : s.state = .MAPPING)
        (h2 : s.map_iter = []) (h3 : 0 < s.working_maps.length),
        pickFrom s.working_maps r h3 ∈ s.working_maps ∧
        nextTask s r = ⟨some (.map (pickFrom s.working_maps r h3)
          (s.datasource.lookup (pickFrom s.working_maps r h3))), false, s⟩) ∧
    (∀ (s : TMState K V IK IV R) (r : Nat) (k : K), s.state = .MAPPING →
        s.map_iter = [] → s.working_maps = [k] →
        nextTask s r = ⟨some (.map k (s.datasource.lookup k)), false, s⟩) ∧
    (∀ (s : TMState K V IK IV R) (r : Nat), s.state = .MAPPING →
        ((nextTask s r).s).state ≠ .MAPPING → s.working_maps = []) := by
  refine ⟨?_, ?_, ?_⟩
  · intro s r h1 h2 h3
    exact ⟨pickFrom_mem s.working_maps r h3,
      nextTask_mapping_reissue s r h1 h2 h3⟩
  · intro s r k h1 h2 h3
    obtain ⟨st, ds, mi, wm, mr, ri, wr, res⟩ := s
    simp only at h1 h2 h3
    subst h1
    subst h2
    subst h3
    have hlen : (0 : Nat) < ([k] : List K).length := by simp
    rw [nextTask_mapping_reissue _ r rfl rfl hlen, pickFrom_singleton]
  · intro s r h1 h
    exact (nextTask_mapping_change s r h1 h).2

/-- A MAPPING state with one straggling key `7` in flight. -/
def csStrag : TMState Nat Nat Nat Nat Nat :=
  { state := .MAPPING, datasource := dsW, map_iter := [], working_maps := [7],
    map_results := [], reduce_iter := [], working_reduces := [], results := [] }

/-- Witness for `c4_reissue`: one straggling key in flight is re-issued
unchanged, for an arbitrary random draw. -/
theorem c4_reissue_witness :
    csStrag.state = .MAPPING ∧ csStrag.map_iter = [] ∧
    csStrag.working_maps = [7] ∧
    nextTask csStrag 5 =
      ⟨some (.map 7 (csStrag.datasource.lookup 7)), false, csStrag⟩ :=
  ⟨rfl, rfl, rfl, c4_reissue.2.1 csStrag 5 7 rfl rfl rfl⟩

/-! ### Stale and duplicate map-done reports (claims C5, C6) -/

theorem map_done_not_mem [DecidableEq K] [DecidableEq IK]
    (s : TMState K V IK IV R) (d : K × List (IK × List IV))
    (h : d.1 ∉ s.working_maps) : map_done s d = s := by
  rw [map_done, if_neg h]

theorem map_done_mem_working [DecidableEq K] [DecidableEq IK]
    (s : TMState K V IK IV R) (d : K × List (IK × List IV))
    (h : d.1 ∈ s.working_maps) :
    (map_done s d).working_maps = serase s.working_maps d.1 := by
  rw [map_done, if_pos h]

/-- Claim C5: a map-done report whose task key is not in the map working set
is discarded (the state, hence Intermediate Results and working set, is
unchanged), and submitting the same report twice — the key having been
removed by the first acceptance — leaves the second call a no-op. -/
theorem c5_duplicate_mapdone [DecidableEq K] [DecidableEq IK] :
    (∀ (s : TMState K V IK IV R) (d : K × List (IK × List IV)),
        d.1 ∉ s.working_maps → map_done s d = s) ∧
    (∀ (s : TMState K V IK IV R) (d : K × List (IK × List IV)),
        s.working_maps.Nodup →
        map_done (map_done s d) d = map_done s d) := by
  refine ⟨map_done_not_mem, ?_⟩
  intro s d hnd
  by_cases h : d.1 ∈ s.working_maps
  · have h2 : d.1 ∉ (map_done s d).working_maps := by
      rw [map_done_mem_working s d h]
      exact not_mem_serase_of_nodup d.1 s.working_maps hnd
    exact map_done_not_mem (map_done s d) d h2
  · rw [map_done_not_mem s d h]
    exact map_done_not_mem s d h

/-- Witness for `c5_duplicate_mapdone`: a stale report for key `9` (not in
flight) and a duplicate report for key `1` at a concrete state. -/
theorem c5_duplicate_mapdone_witness :
    ((9 : Nat), ([(0, [1])] : List (Nat × List Nat))).1 ∉ csStrag.working_maps ∧
    map_done (csStrag : TMState Nat Nat Nat Nat Nat) (9, [(0, [1])]) = csStrag ∧
    map_done (map_done (csStrag : TMState Nat Nat Nat Nat Nat) (7, [(0, [1])]))
        (7, [(0, [1])])
      = map_done csStrag (7, [(0, [1])]) :=
  ⟨by decide, c5_duplicate_mapdone.1 csStrag (9, [(0, [1])]) (by decide),
   c5_duplicate_mapdone.2 csStrag (7, [(0, [1])]) (by decide)⟩

theorem foldl_extendAt_lookup_not_mem [DecidableEq IK]
    (rep : List (IK × List IV)) :
    ∀ (m : List (IK × List IV)) (ik : IK), ik ∉ rep.map Prod.fst →
    dlookup (rep.foldl (fun acc e => extendAt acc e.1 e.2) m) ik
      = dlookup m ik := by
  induction rep with
  | nil => intro m ik _; rfl
  | cons e rest ih =>
      intro m ik h
      simp only [List.map_cons, List.mem_cons] at h
      push_neg at h
      rw [List.foldl_cons, ih _ ik h.2, dlookup_extendAt_ne m e.1 ik e.2 h.1]

theorem foldl_extendAt_lookup_mem [DecidableEq IK]
    (rep : List (IK × List IV)) :
    ∀ (m : List (IK × List IV)) (ik : IK) (vs : List IV),
    (rep.map Prod.fst).Nodup → (ik, vs) ∈ rep →
    dlookup (rep.foldl (fun acc e => extendAt acc e.1 e.2) m) ik
      = some ((dlookup m ik).getD [] ++ vs) := by
  induction rep with
  | nil => intro m ik vs _ h; cases h
  | cons e rest ih =>
      intro m ik vs hnd hmem
      rw [List.map_cons, List.nodup_cons] at hnd
      rw [List.foldl_cons]
      rcases List.mem_cons.mp hmem with he | hrest
      · subst he
        rw [foldl_extendAt_lookup_not_mem rest _ ik hnd.1,
          dlookup_extendAt_self]
      · have hne : ik ≠ e.1 := by
          intro hh
          exact hnd.1 (hh ▸ List.mem_map_of_mem Prod.fst hrest)
        rw [ih _ ik vs hnd.2 hrest, dlookup_extendAt_ne m e.1 ik e.2 hne]

/-- Claim C6: an accepted map-done report removes its task key from the map
working set and, for every entry of the reported grouping, appends the
reported values to the sequence already accumulated under that intermediate
key — the old values survive as a prefix; intermediate keys not mentioned by
the report are untouched. -/
theorem c6_mapdone_appends [DecidableEq K] [DecidableEq IK] :
    ∀ (s : TMState K V IK IV R) (d : K × List (IK × List IV)),
    d.1 ∈ s.working_maps → (d.2.map Prod.fst).Nodup →
    (map_done s d).working_maps = serase s.working_maps d.1 ∧
    (∀ ik vs, (ik, vs) ∈ d.2 →
        dlookup (map_done s d).map_results ik
          = some ((dlookup s.map_results ik).getD [] ++ vs)) ∧
    (∀ ik, ik ∉ d.2.map Prod.fst →
        dlookup (map_done s d).map_results ik = dlookup s.map_results ik) := by
  intro s d hmem hnd
  refine ⟨map_done_mem_working s d hmem, ?_, ?_⟩
  · intro ik vs hin
    rw [map_done, if_pos hmem]
    exact foldl_extendAt_lookup_mem d.2 s.map_results ik vs hnd hin
  · intro ik hout
    rw [map_done, if_pos hmem]
    exact foldl_extendAt_lookup_not_mem d.2 s.map_results ik hout

/-- Witness for `c6_mapdone_appends`: an accepted report for the straggling
key `7` carrying one intermediate entry. -/
theorem c6_mapdone_appends_witness :
    ((7 : Nat), ([(0, [4])] : List (Nat × List Nat))).1 ∈ csStrag.working_maps ∧
    (map_done (csStrag : TMState Nat Nat Nat Nat Nat)
        (7, [(0, [4])])).working_maps = serase csStrag.working_maps 7 ∧
    dlookup (map_done (csStrag : TMState Nat Nat Nat Nat Nat)
        (7, [(0, [4])])).map_results 0
      = some ((dlookup csStrag.map_results 0).getD [] ++ [4]) := by
  have h := c6_mapdone_appends csStrag (7, [(0, [4])]) (by decide) (by decide)
  exact ⟨by decide, h.1, h.2.1 0 [4] (by decide)⟩

/-! ### Reduce-done overwrites (claim C7) -/

/-- Claim C7: an accepted reduce-done report overwrites the Final Results
entry for its key (any previous value is replaced, not appended to), leaves
other keys' final results unchanged and removes the key from the reduce
working set; a report whose key is not in the reduce working set changes
nothing. -/
theorem c7_reducedone_overwrites [DecidableEq IK] :
    ∀ (s : TMState K V IK IV R) (d : IK × R),
    (d.1 ∈ s.working_reduces →
        dlookup (reduce_done s d).results d.1 = some d.2 ∧
        (reduce_done s d).working_reduces = serase s.working_reduces d.1 ∧
        (∀ k, k ≠ d.1 →
          dlookup (reduce_done s d).results k = dlookup s.results k)) ∧
    (d.1 ∉ s.working_reduces → reduce_done s d = s) := by
  intro s d
  constructor
  · intro hmem
    refine ⟨?_, ?_, ?_⟩
    · rw [reduce_done, if_pos hmem]
      exact dlookup_dinsert_self s.results d.1 d.2
    · rw [reduce_done, if_pos hmem]
    · intro k hk
      rw [reduce_done, if_pos hmem]
      exact dlookup_dinsert_ne s.results d.1 k d.2 hk
  · intro hmem
    rw [reduce_done, if_neg hmem]

/-- A REDUCING state with key `3` in flight and an existing final result for
it, witnessing the overwrite of `c7_reducedone_overwrites`. -/
def csRed : TMState Nat Nat Nat Nat Nat :=
  { state := .REDUCING, datasource := dsW, map_iter := [], working_maps := [],
    map_results := [(3, [1, 2])], reduce_iter := [], working_reduces := [3],
    results := [(3, 99)] }

/-- Witness for `c7_reducedone_overwrites`: an accepted report for key `3`
overwrites the stale final result `99`, and a stale report for key `4` is
discarded. -/
theorem c7_reducedone_overwrites_witness :
    ((3 : Nat), (42 : Nat)).1 ∈ csRed.working_reduces ∧
    dlookup (reduce_done (csRed : TMState Nat Nat Nat Nat Nat) (3, 42)).results 3
      = some 42 ∧
    reduce_done (csRed : TMState Nat Nat Nat Nat Nat) (4, 42) = csRed := by
  refine ⟨by decide, ((c7_reducedone_overwrites csRed (3, 42)).1 (by decide)).1,
    (c7_reducedone_overwrites csRed (4, 42)).2 (by decide)⟩

/-! ### The master's shutdown behavior (claim C9) -/

/-- The master process around its TaskManager: the currently connected
worker channels (by id) and whether the listening socket is still open
(`Server.handle_close` closes the listening dispatcher). -/
structure MasterState (K V IK IV R : Type) where
  tm : TMState K V IK IV R
  channels : List Nat
  listening : Bool

/-- One `start_new_task` request arriving from some connected channel: run
`next_task`; if that call ran `self.server.handle_close()` the listening
socket closes; the returned command goes to the requesting channel. -/
def channelRequest [DecidableEq K] [DecidableEq IK]
    (m : MasterState K V IK IV R) (r : Nat) :
    MasterState K V IK IV R × Option (TaskCmd K V IK IV) :=
  (⟨(nextTask m.tm r).s, m.channels,
    m.listening && !(nextTask m.tm r).closeServer⟩, (nextTask m.tm r).cmd)

/-- Claim C9 (amended): every `next_task` request served in the FINISHED
state returns a disconnect instruction for the requesting channel, leaves
the TaskManager unchanged, and closes the master's listening state during
that same call — regardless of how many channels are still connected. -/
theorem c9_finished_disconnect [DecidableEq K] [DecidableEq IK] :
    ∀ (m : MasterState K V IK IV R) (r : Nat), m.tm.state = .FINISHED →
    (channelRequest m r).2 = some .disconnect ∧
    (channelRequest m r).1.tm = m.tm ∧
    (channelRequest m r).1.listening = false ∧
    (channelRequest m r).1.channels = m.channels := by
  intro m r h
  have hnt := nextTask_finished m.tm r h
  rw [channelRequest, hnt]
  exact ⟨rfl, rfl, Bool.and_false m.listening, rfl⟩

/-- An idle master over an empty dataset with two workers connected: the very
first request runs the phase all the way to FINISHED. -/
def cm9 : MasterState Nat Nat Nat Nat Nat :=
  { tm := tmInit ⟨[], fun _ => 0⟩, channels := [1, 2], listening := true }

/-- Counterexample to claim C9 as stated: the first request (from channel 1)
reaches FINISHED and closes the master's listening state in that same call,
while channel 2 is still connected — the close does not wait for all
channels to disconnect. -/
theorem c9_counterexample :
    (channelRequest cm9 0).2 = some TaskCmd.disconnect ∧
    (channelRequest cm9 0).1.listening = false ∧
    (channelRequest cm9 0).1.channels = [1, 2] := by
  refine ⟨by decide, by decide, by decide⟩

/-- A master already in FINISHED with one channel left. -/
def cm9fin : MasterState Nat Nat Nat Nat Nat :=
  { tm := { (tmInit ⟨[], fun _ => 0⟩ : TMState Nat Nat Nat Nat Nat) with
      state := .FINISHED },
    channels := [5], listening := true }

/-- Witness for `c9_finished_disconnect` at a concrete FINISHED master. -/
theorem c9_finished_disconnect_witness :
    cm9fin.tm.state = .FINISHED ∧
    ((channelRequest cm9fin 3).2 = some .disconnect ∧
      (channelRequest cm9fin 3).1.tm = cm9fin.tm ∧
      (channelRequest cm9fin 3).1.listening = false ∧
      (channelRequest cm9fin 3).1.channels = cm9fin.channels) :=
  ⟨rfl, c9_finished_disconnect cm9fin 3 rfl⟩

/-! ### Wire framing and authentication (mincepie.py lines 80-210) -/

/-- The channel's `self.auth` attribute: `None`, the issued nonce held while
awaiting the proof, or the marker string `"Done"`. -/
inductive AuthState
  | unset
  | challengeIssued (nonce : String)
  | done
deriving DecidableEq

/-- The message `verify_auth` hashes (`hmac.new(password, self.auth,
sha1)`): the held value; `None` hashes like an empty message. -/
def authStr : AuthState → String
  | .unset => ""
  | .challengeIssued n => n
  | .done => "Done"

/-- Split a header at the first SEPARATOR, as `message.find(':')` does. -/
def splitSep : List Char → Option (List Char × List Char)
  | [] => none
  | c :: rest =>
      if c = ':' then some ([], rest)
      else (splitSep rest).map (fun p => (c :: p.1, p.2))

/-- `Protocol.decode_command`: split the header into `(command, rest)`; a
header without a separator raises ValueError (`none`). -/
def decode_command (msg : String) : Option (String × String) :=
  (splitSep msg.toList).map (fun p => (String.mk p.1, String.mk p.2))

/-- Digit check standing for `int(length)`; a non-numeric declared length
raises ValueError. -/
def isNatStr (s : String) : Bool := s.toList.all Char.isDigit

/-- Payload shapes a master-side channel can deserialize: a mapdone report
or a reducedone report. -/
def MPayload (K IK IV R : Type) := (K × List (IK × List IV)) ⊕ (IK × R)

/-- Argument handed to a master-side command handler: nothing, an inline
header string, or a deserialized payload. -/
inductive MData (K IK IV R : Type)
  | noData
  | str (s : String)
  | payload (p : MPayload K IK IV R)

/-- Observable effects of processing one frame on a master-side channel. -/
inductive MEff (K V IK IV R : Type)
  | sentChallenge (nonce : String)
  | sentAuth (proof : String)
  | sentTask (t : TaskCmd K V IK IV)
  | closedChan
  | closedServer
  | deserialized
  | fatalExit
  | protoError
deriving DecidableEq

/-- A master-side channel (`ServerChannel`): authentication state, pending
`mid_command`, whether the socket has been closed, and the server's
TaskManager from which the channel schedules. -/
structure MChan (K V IK IV R : Type) where
  auth : AuthState
  mid : Option String
  closed : Bool
  tm : TMState K V IK IV R

/-- `ServerChannel.start_new_task`: ask the TaskManager for the next task and
push it to this channel (nothing is pushed when `next_task` returns None);
`handle_close` run by `next_task` in FINISHED surfaces as `closedServer`. -/
def startNewTask [DecidableEq K] [DecidableEq IK] (s : MChan K V IK IV R)
    (r : Nat) : MChan K V IK IV R × List (MEff K V IK IV R) :=
  ({ s with tm := (nextTask s.tm r).s },
    (if (nextTask s.tm r).closeServer then [.closedServer] else []) ++
      (match (nextTask s.tm r).cmd with
       | none => []
       | some t => [.sentTask t]))

/-- `Protocol.respond_to_challenge` on the master side: reply with the keyed
hash of the received challenge string, then `post_auth_init` — which for a
`ServerChannel` is `start_new_task`. -/
def respondToChallengeM [DecidableEq K] [DecidableEq IK]
    (secret : String) (mac : String → String → String)
    (s : MChan K V IK IV R) (d : String) (r : Nat) :
    MChan K V IK IV R × List (MEff K V IK IV R) :=
  ((startNewTask s r).1, .sentAuth (mac secret d) :: (startNewTask s r).2)

/-- `Protocol.verify_auth`: compare the peer's proof against the keyed hash
of the held nonce; flip `auth` to `"Done"` on match, close otherwise. -/
def verifyAuthM (secret : String) (mac : String → String → String)
    (s : MChan K V IK IV R) (d : String) :
    MChan K V IK IV R × List (MEff K V IK IV R) :=
  if d = mac secret (authStr s.auth) then ({ s with auth := .done }, [])
  else ({ s with closed := true }, [.closedChan])

/-- `Protocol.process_unauthed_command` on a master-side channel:
`challenge → respond_to_challenge`, `auth → verify_auth`,
`disconnect → handle_close`; anything else is a KeyError, logged critical
and the connection closed. -/
def processUnauthedM [DecidableEq K] [DecidableEq IK]
    (secret : String) (mac : String → String → String)
    (s : MChan K V IK IV R) (c d : String) (r : Nat) :
    MChan K V IK IV R × List (MEff K V IK IV R) :=
  if c = "challenge" then respondToChallengeM secret mac s d r
  else if c = "auth" then verifyAuthM secret mac s d
  else if c = "disconnect" then ({ s with closed := true }, [.closedChan])
  else ({ s with closed := true }, [.closedChan])

/-- `ServerChannel.process_command` (`mapdone`/`reducedone` record the result
and dispatch the next task), falling back to `Protocol.process_command`
(`challenge`, `disconnect`; unknown commands close). A payload whose dynamic
shape does not fit the command raises and the reactor closes the channel. -/
def processCommandM [DecidableEq K] [DecidableEq IK]
    (secret : String) (mac : String → String → String)
    (s : MChan K V IK IV R) (c : String) (data : MData K IK IV R) (r : Nat) :
    MChan K V IK IV R × List (MEff K V IK IV R) :=
  if c = "mapdone" then
    match data with
    | .payload (Sum.inl d) => startNewTask { s with tm := map_done s.tm d } r
    | .payload (Sum.inr _) => ({ s with closed := true }, [.protoError])
    | .noData => ({ s with closed := true }, [.protoError])
    | .str _ => ({ s with closed := true }, [.protoError])
  else if c = "reducedone" then
    match data with
    | .payload (Sum.inr d) => startNewTask { s with tm := reduce_done s.tm d } r
    | .payload (Sum.inl _) => ({ s with closed := true }, [.protoError])
    | .noData => ({ s with closed := true }, [.protoError])
    | .str _ => ({ s with closed := true }, [.protoError])
  else if c = "challenge" then
    respondToChallengeM secret mac s
      (match data with
       | .str d => d
       | .noData => ""
       | .payload _ => "") r
  else if c = "disconnect" then ({ s with closed := true }, [.closedChan])
  else ({ s with closed := true }, [.closedChan])

/-- `Protocol.found_terminator` on a master-side channel: one complete
terminator-delimited read `msg`, dispatched on authentication state and
`mid_command` exactly as the source's three-way branch; `loads` models
`pickle.loads` over the raw payload bytes, and the dead re-check guarding
pickled data from an unauthenticated source appears as the `fatalExit`
branch. -/
def mstep [DecidableEq K] [DecidableEq IK]
    (secret : String) (mac : String → String → String)
    (loads : String → Option (MPayload K IK IV R))
    (s : MChan K V IK IV R) (msg : String) (r : Nat) :
    MChan K V IK IV R × List (MEff K V IK IV R) :=
  if s.auth ≠ .done then
    match decode_command msg with
    | none => ({ s with closed := true }, [.protoError])
    | some (c, d) => processUnauthedM secret mac s c d r
  else if s.mid = none then
    match decode_command msg with
    | none => ({ s with closed := true }, [.protoError])
    | some (c, d) =>
        if c = "challenge" then processCommandM secret mac s c (.str d) r
        else if d ≠ "" then
          if isNatStr d then ({ s with mid := some c }, [])
          else ({ s with closed := true }, [.protoError])
        else processCommandM secret mac s c .noData r
  else
    if s.auth ≠ .done then (s, [.fatalExit])
    else
      match loads msg with
      | none => ({ s with closed := true }, [.protoError])
      | some p =>
          ((processCommandM secret mac { s with mid := none }
              (s.mid.getD "") (.payload p) r).1,
           .deserialized ::
             (processCommandM secret mac { s with mid := none }
               (s.mid.getD "") (.payload p) r).2)

/-! ### The pre-authentication task dispatch (claim C2) -/

/-- A one-key dataset behind the master of the handshake run. -/
def c2ds : Dataset Nat Nat := ⟨[0], fun _ => 5⟩

/-- A concrete stand-in for the keyed hash (any concrete function works for
the run; the peer below never sends any proof at all). -/
def c2mac (secret msg : String) : String := secret ++ "/" ++ msg

/-- The master-side channel right after `handle_accept`/`start_auth`: the
master has issued its challenge, holds the nonce in `auth`, and the peer has
not authenticated. -/
def c2chan : MChan Nat Nat Nat Nat Nat :=
  { auth := .challengeIssued "n0", mid := none, closed := false,
    tm := tmInit c2ds }

/-- Claim C2 fails on the code: a peer that never presents any proof — its
sole frame is the header `challenge:abc` — receives a MAP task command on
the still-unauthenticated connection, because `process_unauthed_command`
routes `challenge` to `respond_to_challenge`, whose `post_auth_init` on a
`ServerChannel` is `start_new_task`; the connection is not closed and the
channel's `auth` never became `"Done"`. -/
theorem c2_unauthed_task_dispatch :
    (mstep "pw" c2mac (fun _ => none) c2chan "challenge:abc" 0).2
      = [.sentAuth (c2mac "pw" "abc"), .sentTask (.map 0 5)] ∧
    (mstep "pw" c2mac (fun _ => none) c2chan "challenge:abc" 0).1.auth
      ≠ .done ∧
    (mstep "pw" c2mac (fun _ => none) c2chan "challenge:abc" 0).1.closed
      = false := by
  exact ⟨by decide, by decide, by decide⟩

/-! ### The worker channel (`Client`, mincepie.py lines 213-274) -/

/-- Payload shapes a worker channel can deserialize: a map task or a reduce
task. -/
def WPayload (K V IK IV : Type) := (K × V) ⊕ (IK × List IV)

/-- Argument handed to a worker command handler. -/
inductive WData (K V IK IV : Type)
  | noData
  | str (s : String)
  | payload (p : WPayload K V IK IV)

/-- Observable effects of processing one frame on a worker channel. -/
inductive WEff (K IK IV R E : Type)
  | sentChallenge (nonce : String)
  | sentAuth (proof : String)
  | sentMapDone (d : K × List (IK × List IV))
  | sentReduceDone (d : IK × R)
  | closedChan
  | deserialized
  | fatalExit
  | protoError
  | excRaised (e : E)
deriving DecidableEq

/-- The worker (`Client`) channel: authentication state, pending
`mid_command`, closed flag, and the nonce supply backing the `os.urandom`
draws of `send_challenge`. -/
structure WChan where
  auth : AuthState
  mid : Option String
  closed : Bool
  nonces : List String

/-- `Protocol.send_challenge`: draw a fresh nonce, hold it in `auth`, send
the challenge. -/
def sendChallengeW (s : WChan) : WChan × List (WEff K IK IV R E) :=
  ({ s with auth := .challengeIssued (s.nonces.headD ""),
            nonces := s.nonces.tail },
   [.sentChallenge (s.nonces.headD "")])

/-- `Client.post_auth_init`: `if not self.auth: self.send_challenge()`. -/
def postAuthInitW (s : WChan) : WChan × List (WEff K IK IV R E) :=
  if s.auth = .unset then sendChallengeW s else (s, [])

/-- `Protocol.respond_to_challenge` on the worker side. -/
def respondToChallengeW (secret : String) (mac : String → String → String)
    (s : WChan) (d : String) : WChan × List (WEff K IK IV R E) :=
  ((postAuthInitW s : WChan × List (WEff K IK IV R E)).1,
    .sentAuth (mac secret d) ::
      (postAuthInitW s : WChan × List (WEff K IK IV R E)).2)

/-- `Protocol.verify_auth` on the worker side. -/
def verifyAuthW (secret : String) (mac : String → String → String)
    (s : WChan) (d : String) : WChan × List (WEff K IK IV R E) :=
  if d = mac secret (authStr s.auth) then ({ s with auth := .done }, [])
  else ({ s with closed := true }, [.closedChan])

/-- `Protocol.process_unauthed_command` on a worker channel. -/
def processUnauthedW (secret : String) (mac : String → String → String)
    (s : WChan) (c d : String) : WChan × List (WEff K IK IV R E) :=
  if c = "challenge" then respondToChallengeW secret mac s d
  else if c = "auth" then verifyAuthW secret mac s d
  else if c = "disconnect" then ({ s with closed := true }, [.closedChan])
  else ({ s with closed := true }, [.closedChan])

/-- `Client.process_command`: `map`/`reduce` run the executor and send the
done-report; an error raised by the pluggable mapper/reducer propagates out
of the handler uncaught, so no report is sent and the reactor's error path
closes the connection; other commands fall back to
`Protocol.process_command`. -/
def processCommandW [DecidableEq IK] {E : Type}
    (secret : String) (mac : String → String → String)
    (mapper : K → V → Except E (List (IK × IV)))
    (reducer : IK → List IV → Except E R)
    (s : WChan) (c : String) (data : WData K V IK IV) :
    WChan × List (WEff K IK IV R E) :=
  if c = "map" then
    match data with
    | .payload (Sum.inl d) =>
        match call_map mapper d with
        | .ok rep => (s, [.sentMapDone rep])
        | .error e => ({ s with closed := true }, [.excRaised e])
    | .payload (Sum.inr _) => ({ s with closed := true }, [.protoError])
    | .noData => ({ s with closed := true }, [.protoError])
    | .str _ => ({ s with closed := true }, [.protoError])
  else if c = "reduce" then
    match data with
    | .payload (Sum.inr d) =>
        match call_reduce reducer d with
        | .ok rep => (s, [.sentReduceDone rep])
        | .error e => ({ s with closed := true }, [.excRaised e])
    | .payload (Sum.inl _) => ({ s with closed := true }, [.protoError])
    | .noData => ({ s with closed := true }, [.protoError])
    | .str _ => ({ s with closed := true }, [.protoError])
  else if c = "challenge" then
    respondToChallengeW secret mac s
      (match data with
       | .str d => d
       | .noData => ""
       | .payload _ => "")
  else if c = "disconnect" then ({ s with closed := true }, [.closedChan])
  else ({ s with closed := true }, [.closedChan])

/-- `Protocol.found_terminator` on a worker channel, with the same three-way
branch as `mstep`. -/
def wstep [DecidableEq IK] {E : Type}
    (secret : String) (mac : String → String → String)
    (mapper : K → V → Except E (List (IK × IV)))
    (reducer : IK → List IV → Except E R)
    (loads : String → Option (WPayload K V IK IV))
    (s : WChan) (msg : String) : WChan × List (WEff K IK IV R E) :=
  if s.auth ≠ .done then
    match decode_command msg with
    | none => ({ s with closed := true }, [.protoError])
    | some (c, d) => processUnauthedW secret mac s c d
  else if s.mid = none then
    match decode_command msg with
    | none => ({ s with closed := true }, [.protoError])
    | some (c, d) =>
        if c = "challenge" then
          processCommandW secret mac mapper reducer s c (.str d)
        else if d ≠ "" then
          if isNatStr d then ({ s with mid := some c }, [])
          else ({ s with closed := true }, [.protoError])
        else processCommandW secret mac mapper reducer s c .noData
  else
    if s.auth ≠ .done then (s, [.fatalExit])
    else
      match loads msg with
      | none => ({ s with closed := true }, [.protoError])
      | some p =>
          ((processCommandW secret mac mapper reducer { s with mid := none }
              (s.mid.getD "") (.payload p)).1,
           .deserialized ::
             (processCommandW secret mac mapper reducer { s with mid := none }
               (s.mid.getD "") (.payload p)).2)

/-! ### Per-frame dispatch properties (claim C10) -/

theorem startNewTask_effs [DecidableEq K] [DecidableEq IK]
    (s : MChan K V IK IV R) (r : Nat) :
    MEff.deserialized ∉ (startNewTask s r).2 ∧
    MEff.fatalExit ∉ (startNewTask s r).2 ∧
    (startNewTask s r).1.mid = s.mid := by
  refine ⟨?_, ?_, rfl⟩ <;>
  · simp only [startNewTask, List.mem_append]
    push_neg
    constructor
    · split <;> simp
    · rcases (nextTask s.tm r).cmd with _ | t <;> simp

theorem processUnauthedM_effs [DecidableEq K] [DecidableEq IK]
    (secret : String) (mac : String → String → String)
    (s : MChan K V IK IV R) (c d : String) (r : Nat) :
    MEff.deserialized ∉ (processUnauthedM secret mac s c d r).2 ∧
    MEff.fatalExit ∉ (processUnauthedM secret mac s c d r).2 ∧
    (processUnauthedM secret mac s c d r).1.mid = s.mid := by
  rw [processUnauthedM]
  split_ifs with h1 h2 h3
  · have h := startNewTask_effs s r
    refine ⟨?_, ?_, h.2.2⟩ <;> simp [respondToChallengeM, h.1, h.2.1]
  · rw [verifyAuthM]
    split_ifs <;> simp
  · simp
  · simp

theorem processCommandM_effs [DecidableEq K] [DecidableEq IK]
    (secret : String) (mac : String → String → String)
    (s : MChan K V IK IV R) (c : String) (data : MData K IK IV R) (r : Nat) :
    MEff.deserialized ∉ (processCommandM secret mac s c data r).2 ∧
    MEff.fatalExit ∉ (processCommandM secret mac s c data r).2 ∧
    (processCommandM secret mac s c data r).1.mid = s.mid := by
  rw [processCommandM.eq_def]
  split_ifs with h1 h2 h3 h4
  · rcases data with _ | d | p
    · simp
    · simp
    · rcases p with d | d
      · exact startNewTask_effs _ r
      · simp
  · rcases data with _ | d | p
    · simp
    · simp
    · rcases p with d | d
      · simp
      · exact startNewTask_effs _ r
  · have h := startNewTask_effs s r
    refine ⟨?_, ?_, h.2.2⟩ <;> simp [respondToChallengeM, h.1, h.2.1]
  · simp
  · simp

theorem sendChallengeW_effs (s : WChan) :
    WEff.deserialized ∉ (sendChallengeW s : WChan × List (WEff K IK IV R E)).2 ∧
    WEff.fatalExit ∉ (sendChallengeW s : WChan × List (WEff K IK IV R E)).2 ∧
    (sendChallengeW s : WChan × List (WEff K IK IV R E)).1.mid = s.mid := by
  refine ⟨?_, ?_, rfl⟩ <;> simp [sendChallengeW]

theorem postAuthInitW_effs (s : WChan) :
    WEff.deserialized ∉ (postAuthInitW s : WChan × List (WEff K IK IV R E)).2 ∧
    WEff.fatalExit ∉ (postAuthInitW s : WChan × List (WEff K IK IV R E)).2 ∧
    (postAuthInitW s : WChan × List (WEff K IK IV R E)).1.mid = s.mid := by
  rw [postAuthInitW]
  split_ifs
  · exact sendChallengeW_effs s
  · exact ⟨by simp, by simp, rfl⟩

theorem processUnauthedW_effs (secret : String)
    (mac : String → String → String) (s : WChan) (c d : String) :
    WEff.deserialized
      ∉ (processUnauthedW secret mac s c d : WChan × List (WEff K IK IV R E)).2 ∧
    WEff.fatalExit
      ∉ (processUnauthedW secret mac s c d : WChan × List (WEff K IK IV R E)).2 ∧
    (processUnauthedW secret mac s c d :
      WChan × List (WEff K IK IV R E)).1.mid = s.mid := by
  rw [processUnauthedW]
  split_ifs with h1 h2 h3
  · have h : WEff.deserialized
        ∉ (postAuthInitW s : WChan × List (WEff K IK IV R E)).2 ∧
      WEff.fatalExit
        ∉ (postAuthInitW s : WChan × List (WEff K IK IV R E)).2 ∧
      (postAuthInitW s : WChan × List (WEff K IK IV R E)).1.mid = s.mid :=
      postAuthInitW_effs s
    refine ⟨?_, ?_, h.2.2⟩ <;> simp [respondToChallengeW, h.1, h.2.1]
  · rw [verifyAuthW]
    split_ifs <;> simp
  · simp
  · simp

theorem processCommandW_effs [DecidableEq IK] {E : Type} (secret : String)
    (mac : String → String → String)
    (mapper : K → V → Except E (List (IK × IV)))
    (reducer : IK → List IV → Except E R)
    (s : WChan) (c : String) (data : WData K V IK IV) :
    WEff.deserialized ∉ (processCommandW secret mac mapper reducer s c data).2 ∧
    WEff.fatalExit ∉ (processCommandW secret mac mapper reducer s c data).2 ∧
    (processCommandW secret mac mapper reducer s c data).1.mid = s.mid := by
  rw [processCommandW.eq_def]
  split_ifs with h1 h2 h3 h4
  · rcases data with _ | d | p
    · simp
    · simp
    · rcases p with d | d
      · rcases hcm : call_map mapper d with e | rep <;> simp [hcm]
      · simp
  · rcases data with _ | d | p
    · simp
    · simp
    · rcases p with d | d
      · simp
      · rcases hcr : call_reduce reducer d with e | rep <;> simp [hcr]
  · have h : WEff.deserialized
        ∉ (postAuthInitW s : WChan × List (WEff K IK IV R E)).2 ∧
      WEff.fatalExit
        ∉ (postAuthInitW s : WChan × List (WEff K IK IV R E)).2 ∧
      (postAuthInitW s : WChan × List (WEff K IK IV R E)).1.mid = s.mid :=
      postAuthInitW_effs s
    refine ⟨?_, ?_, h.2.2⟩ <;> simp [respondToChallengeW, h.1, h.2.1]
  · simp
  · simp

theorem mstep_props [DecidableEq K] [DecidableEq IK]
    (secret : String) (mac : String → String → String)
    (loads : String → Option (MPayload K IK IV R))
    (s : MChan K V IK IV R) (msg : String) (r : Nat) :
    MEff.fatalExit ∉ (mstep secret mac loads s msg r).2 ∧
    (MEff.deserialized ∈ (mstep secret mac loads s msg r).2 →
      s.auth = .done ∧ s.mid ≠ none) ∧
    (s.auth ≠ .done →
      (mstep secret mac loads s msg r).1.mid = s.mid ∧
      MEff.deserialized ∉ (mstep secret mac loads s msg r).2) := by
  by_cases ha : s.auth = .done
  · rw [mstep, if_neg (not_not_intro ha)]
    by_cases hm : s.mid = none
    · rw [if_pos hm]
      rcases decode_command msg with _ | ⟨c, d⟩
      · exact ⟨by simp, by simp, fun h => absurd ha h⟩
      · dsimp only
        split_ifs with h1 h2 h3
        · have h := processCommandM_effs secret mac s c (.str d) r
          exact ⟨h.2.1, fun hd => absurd hd h.1, fun h => absurd ha h⟩
        · exact ⟨by simp, by simp, fun h => absurd ha h⟩
        · exact ⟨by simp, by simp, fun h => absurd ha h⟩
        · have h := processCommandM_effs secret mac s c .noData r
          exact ⟨h.2.1, fun hd => absurd hd h.1, fun h => absurd ha h⟩
    · rw [if_neg hm, if_neg (not_not_intro ha)]
      rcases loads msg with _ | p
      · exact ⟨by simp, by simp, fun h => absurd ha h⟩
      · have h := processCommandM_effs secret mac
          ({ s with mid := none } : MChan K V IK IV R) (s.mid.getD "")
          (.payload p) r
        refine ⟨?_, fun _ => ⟨ha, hm⟩, fun hh => absurd ha hh⟩
        simp only [List.mem_cons]
        push_neg
        exact ⟨by simp, h.2.1⟩
  · rw [mstep, if_pos ha]
    rcases decode_command msg with _ | ⟨c, d⟩
    · exact ⟨by simp, by simp, fun _ => ⟨rfl, by simp⟩⟩
    · have h := processUnauthedM_effs secret mac s c d r
      exact ⟨h.2.1, fun hd => absurd hd h.1, fun _ => ⟨h.2.2, h.1⟩⟩

theorem wstep_props [DecidableEq IK] {E : Type}
    (secret : String) (mac : String → String → String)
    (mapper : K → V → Except E (List (IK × IV)))
    (reducer : IK → List IV → Except E R)
    (loads : String → Option (WPayload K V IK IV))
    (s : WChan) (msg : String) :
    WEff.fatalExit ∉ (wstep secret mac mapper reducer loads s msg).2 ∧
    (WEff.deserialized ∈ (wstep secret mac mapper reducer loads s msg).2 →
      s.auth = .done ∧ s.mid ≠ none) ∧
    (s.auth ≠ .done →
      (wstep secret mac mapper reducer loads s msg).1.mid = s.mid ∧
      WEff.deserialized ∉ (wstep secret mac mapper reducer loads s msg).2) := by
  by_cases ha : s.auth = .done
  · rw [wstep, if_neg (not_not_intro ha)]
    by_cases hm : s.mid = none
    · rw [if_pos hm]
      rcases decode_command msg with _ | ⟨c, d⟩
      · exact ⟨by simp, by simp, fun h => absurd ha h⟩
      · dsimp only
        split_ifs with h1 h2 h3
        · have h := processCommandW_effs secret mac mapper reducer s c (.str d)
          exact ⟨h.2.1, fun hd => absurd hd h.1, fun h => absurd ha h⟩
        · exact ⟨by simp, by simp, fun h => absurd ha h⟩
        · exact ⟨by simp, by simp, fun h => absurd ha h⟩
        · have h := processCommandW_effs secret mac mapper reducer s c .noData
          exact ⟨h.2.1, fun hd => absurd hd h.1, fun h => absurd ha h⟩
    · rw [if_neg hm, if_neg (not_not_intro ha)]
      rcases loads msg with _ | p
      · exact ⟨by simp, by simp, fun h => absurd ha h⟩
      · have h := processCommandW_effs secret mac mapper reducer
          ({ s with mid := none } : WChan) (s.mid.getD "") (.payload p)
        refine ⟨?_, fun _ => ⟨ha, hm⟩, fun hh => absurd ha hh⟩
        simp only [List.mem_cons]
        push_neg
        exact ⟨by simp, h.2.1⟩
  · rw [wstep, if_pos ha]
    rcases decode_command msg with _ | ⟨c, d⟩
    · exact ⟨by simp, by simp, fun _ => ⟨rfl, by simp⟩⟩
    · have h := @processUnauthedW_effs K IK IV R E secret mac s c d
      exact ⟨h.2.1, fun hd => absurd hd h.1, fun _ => ⟨h.2.2, h.1⟩⟩

/-- Claim C10: on every channel (master- or worker-side) and every received
frame, payload bytes are deserialized only when the channel's authentication
state is Done and a mid-command is pending; a frame arriving before
authentication completes is handled by the inline pre-auth dispatch without
entering fixed-length mode (`mid_command` unchanged) and without
deserializing; and the fatal-exit branch guarding pickled data from an
unauthenticated source never fires. -/
theorem c10_deserialize_only_authed [DecidableEq K] [DecidableEq IK] :
    (∀ (secret : String) (mac : String → String → String)
        (loads : String → Option (MPayload K IK IV R))
        (s : MChan K V IK IV R) (msg : String) (r : Nat),
        MEff.fatalExit ∉ (mstep secret mac loads s msg r).2 ∧
        (MEff.deserialized ∈ (mstep secret mac loads s msg r).2 →
          s.auth = .done ∧ s.mid ≠ none) ∧
        (s.auth ≠ .done →
          (mstep secret mac loads s msg r).1.mid = s.mid ∧
          MEff.deserialized ∉ (mstep secret mac loads s msg r).2)) ∧
    (∀ (E : Type) (secret : String) (mac : String → String → String)
        (mapper : K → V → Except E (List (IK × IV)))
        (reducer : IK → List IV → Except E R)
        (loads : String → Option (WPayload K V IK IV))
        (s : WChan) (msg : String),
        WEff.fatalExit ∉ (wstep secret mac mapper reducer loads s msg).2 ∧
        (WEff.deserialized ∈ (wstep secret mac mapper reducer loads s msg).2 →
          s.auth = .done ∧ s.mid ≠ none) ∧
        (s.auth ≠ .done →
          (wstep secret mac mapper reducer loads s msg).1.mid = s.mid ∧
          WEff.deserialized
            ∉ (wstep secret mac mapper reducer loads s msg).2)) :=
  ⟨fun secret mac loads s msg r => mstep_props secret mac loads s msg r,
   fun _ secret mac mapper reducer loads s msg =>
     wstep_props secret mac mapper reducer loads s msg⟩

/-- Witness for `c10_deserialize_only_authed`: a pre-auth master channel
receiving an `auth` frame neither deserializes nor enters fixed-length
mode, and never hits the fatal branch. -/
theorem c10_deserialize_only_authed_witness :
    MEff.fatalExit
      ∉ (mstep "pw" c2mac (fun _ => none) c2chan "auth:zz" 0).2 ∧
    ((mstep "pw" c2mac (fun _ => none) c2chan "auth:zz" 0).1.mid
        = c2chan.mid ∧
      MEff.deserialized
        ∉ (mstep "pw" c2mac (fun _ => none) c2chan "auth:zz" 0).2) :=
  ⟨(c10_deserialize_only_authed.1 "pw" c2mac (fun _ => none) c2chan
      "auth:zz" 0).1,
   (c10_deserialize_only_authed.1 "pw" c2mac (fun _ => none) c2chan
      "auth:zz" 0).2.2 (by decide)⟩

/-! ### Worker-side error propagation (claim C8) -/

/-- An authenticated worker channel awaiting the payload of a `map`
command. -/
def c8chan : WChan :=
  { auth := .done, mid := some "map", closed := false, nonces := [] }

/-- A mapper whose invocation raises. -/
def c8mapper (_k _v : Nat) : Except String (List (Nat × Nat)) :=
  .error "boom"

/-- Counterexample to claim C8 as stated: delivering the payload `(0, 7)` of
a MAP task to a worker whose mapper raises `"boom"` produces no done-report
whatsoever — the error escapes `call_map` uncaught and the reactor's error
path closes the connection; the only effects are the deserialize and the
escaped exception. -/
theorem c8_counterexample :
    (wstep "pw" c2mac c8mapper (fun _ vs => Except.ok vs.length)
        (fun _ => some (Sum.inl (0, 7))) c8chan "rawpayload").2
      = [WEff.deserialized, WEff.excRaised "boom"] ∧
    (wstep "pw" c2mac c8mapper (fun _ vs => Except.ok vs.length)
        (fun _ => some (Sum.inl (0, 7))) c8chan "rawpayload").1.closed
      = true :=
  ⟨by decide, by decide⟩

/-- Claim C8 (amended): the worker does not catch Mapper/Reducer invocation
errors — an error raised by the pluggable `Map`/`Reduce` call propagates out
of `call_map`/`call_reduce` unchanged, so no done-report is produced; failed
results reach the master only when a mapper catches its own errors and
yields failure-encoded values (as the bundled Matlab mapper does). -/
theorem c8_error_propagates [DecidableEq IK] {E : Type} :
    (∀ (mapper : K → V → Except E (List (IK × IV))) (k : K) (v : V) (e : E),
        mapper k v = .error e → call_map mapper (k, v) = .error e) ∧
    (∀ (reducer : IK → List IV → Except E R) (ik : IK) (vs : List IV) (e : E),
        reducer ik vs = .error e → call_reduce reducer (ik, vs) = .error e) := by
  constructor
  · intro mapper k v e h
    rw [call_map]
    simp [h, Except.map]
  · intro reducer ik vs e h
    rw [call_reduce]
    simp [h, Except.map]

/-- Witness for `c8_error_propagates`: the raising mapper's error value is
returned from `call_map` unchanged. -/
theorem c8_error_propagates_witness :
    c8mapper 1 2 = Except.error "boom" ∧
    call_map c8mapper (1, 2) = Except.error "boom" :=
  ⟨rfl, (@c8_error_propagates Nat Nat Nat Nat Nat _ String).1
    c8mapper 1 2 "boom" rfl⟩

end Mincepie
